import Mathlib

/-!
Verification development for the kiwi module manager.

The command orchestration (`run` in runtime/client.py) is embedded as a
pure function from an abstract environment to a trace of observable
events.  The synchronization engine (`fetch_modules`) and the dependency
resolver are not part of the checked sources; they are modelled from the
specification (sections 4.3 and 4.4) and verified against it.
-/

/-- Module names are plain strings (primary keys of all stores). -/
abbrev ModuleName := String

/-- Modelled from the spec: a RemoteCatalog snapshot; each advertised module
carries its ordered dependency list (section 3, ModuleDescriptor).  The
opaque content blob is irrelevant to resolution and omitted. -/
abbrev Catalog := List (ModuleName × List ModuleName)

/-- Names advertised by a catalog. -/
def catNames (cat : Catalog) : List ModuleName :=
  cat.map Prod.fst

/-- Dependency list declared by a catalog entry, if the module is known. -/
def lookupDeps (cat : Catalog) (n : ModuleName) : Option (List ModuleName) :=
  (cat.find? (fun e => e.1 == n)).map Prod.snd

/-- Errors of the dependency resolver (spec section 4.3). -/
inductive ResolveError where
  | dependencyCycle (path : List ModuleName)
  | unknownDependency (name : ModuleName)
deriving DecidableEq, Repr

/-- Number of catalog names not yet on the DFS stack; the measure that
shrinks every time the traversal descends into a new module. -/
def unseen (cat : Catalog) (stack : List ModuleName) : Nat :=
  ((cat.map Prod.fst).filter (fun x => decide (x ∉ stack))).length

theorem length_filter_notmem_lt (n : ModuleName) (stack : List ModuleName)
    (l : List ModuleName) (hn : n ∈ l) (hns : n ∉ stack) :
    (l.filter (fun x => decide (x ∉ n :: stack))).length <
      (l.filter (fun x => decide (x ∉ stack))).length := by
  have hsub : (l.filter fun x => decide (x ∉ n :: stack)).Sublist
      (l.filter fun x => decide (x ∉ stack)) := by
    apply List.monotone_filter_right
    intro a ha
    simp only [decide_eq_true_eq, List.mem_cons, not_or] at ha ⊢
    exact ha.2
  have hn1 : n ∈ l.filter (fun x => decide (x ∉ stack)) :=
    List.mem_filter_of_mem hn (by simpa using hns)
  have hn2 : n ∉ l.filter (fun x => decide (x ∉ n :: stack)) := by
    intro h
    have := List.of_mem_filter h
    simp at this
  refine Nat.lt_of_le_of_ne hsub.length_le ?_
  intro heq
  exact hn2 (hsub.eq_of_length heq ▸ hn1)

theorem mem_catNames_of_lookupDeps (cat : Catalog) (n : ModuleName)
    (ds : List ModuleName) (h : lookupDeps cat n = some ds) :
    n ∈ cat.map Prod.fst := by
  unfold lookupDeps at h
  cases hf : cat.find? (fun e => e.1 == n) with
  | none => rw [hf] at h; cases h
  | some e =>
    have hmem := List.mem_of_find?_eq_some hf
    have hp := List.find?_some hf
    have : e.1 = n := by simpa using hp
    subst this
    exact List.mem_map_of_mem Prod.fst hmem

mutual

/-- Modelled from the spec: one step of the depth-first dependency
traversal of section 4.3.  `stack` is the chain of modules currently being
resolved (used for cycle detection and reporting), `done` the accumulated
dependency-first order.  A module already on the stack means the module
transitively depends on itself, reported as `dependencyCycle`; a module
absent from the catalog is `unknownDependency`. -/
def visit (cat : Catalog) (installed : List ModuleName)
    (stack done : List ModuleName) (n : ModuleName) :
    Except ResolveError (List ModuleName) :=
  if n ∈ done then .ok done
  else if hs : n ∈ stack then .error (.dependencyCycle (n :: stack))
  else
    match h : lookupDeps cat n with
    | none => .error (.unknownDependency n)
    | some ds =>
      match visitAll cat installed (n :: stack) done ds with
      | .error e => .error e
      | .ok done1 => .ok (done1 ++ [n])
termination_by (unseen cat stack, 0)
decreasing_by
  apply Prod.Lex.left
  exact length_filter_notmem_lt n stack (cat.map Prod.fst)
    (mem_catNames_of_lookupDeps cat n ds h) hs

/-- Modelled from the spec: resolve a list of modules in order, skipping
names already installed (section 4.3: the closure contains only
dependencies not yet installed). -/
def visitAll (cat : Catalog) (installed : List ModuleName)
    (stack done : List ModuleName) (ns : List ModuleName) :
    Except ResolveError (List ModuleName) :=
  match ns with
  | [] => .ok done
  | d :: ds =>
    if d ∈ installed then visitAll cat installed stack done ds
    else
      match visit cat installed stack done d with
      | .error e => .error e
      | .ok done1 => visitAll cat installed stack done1 ds
termination_by (unseen cat stack, ns.length + 1)
decreasing_by
  · apply Prod.Lex.right
    simp [List.length_cons]
  · apply Prod.Lex.right
    simp [List.length_cons]
  · apply Prod.Lex.right
    simp [List.length_cons]

end

/-- Modelled from the spec: `resolve(requested, installed, catalog)` of
section 4.3 — the ordered list of not-yet-installed modules needed to
satisfy `requested`, every module after all of its dependencies, or a
resolution error. -/
def resolve (cat : Catalog) (installed : List ModuleName)
    (requested : List ModuleName) : Except ResolveError (List ModuleName) :=
  visitAll cat installed [] [] requested

/-- Observable events of one `run` invocation of runtime/client.py:
`say` is kiwi.say, `out` a plain print, `modLine` the formatted module
listing line `print('[{}] {}: {}'.format(mark, module, description))`
carrying the three format arguments, `netList` a call to
`kiwi.get_remote_module_list`, `engine` a call to `kiwi.fetch_modules`
with its arguments, `ask` the interactive prompt together with the answer
it returned, and `exited c` a `sys.exit(c)` that ends the process. -/
inductive Event where
  | say (msg : String)
  | out (line : String)
  | modLine (mark : Char) (name : ModuleName) (desc : String)
  | netList
  | engine (mods : List ModuleName) (upd : Bool)
  | ask (ans : String)
  | exited (code : Nat)
deriving DecidableEq, Repr

/-- Command-line intent, mirroring the `args` namespace consumed by `run`
(argparse leaves a module-list option at `None` when absent). -/
structure Args where
  list_modules : Bool
  get_modules : Option (List ModuleName)
  update_modules : Option (List ModuleName)
  self_update : Bool

/-- External collaborators of `run`: the installed-module store, the
remote registry (`none` models a requests.RequestException on
`get_remote_module_list`), module descriptions, the synchronization
engine `kiwi.fetch_modules` returning (fetched, updatable, failed), the
answer `kiwi.Helper.ask` returns, and `sys.argv[1]`. -/
structure Env where
  installed : List ModuleName
  remote : Option (List ModuleName)
  descr : ModuleName → String
  fetchF : List ModuleName → Bool → List ModuleName × List ModuleName × List ModuleName
  answer : String
  argv1 : String
  selfUpdOk : Bool

/-- Python truthiness of an optional module list (an absent option and an
empty list are both falsy). -/
def truthy : Option (List ModuleName) → Bool
  | none => false
  | some l => !l.isEmpty

/-- The two printing loops of the list branch: every remote module is
printed with mark 'x' or ' ' and removed from the installed copy
(`installed.remove(module)` drops the first occurrence, i.e. List.erase),
then the leftover installed modules are printed with mark '?'. -/
def listLoopTrace (descr : ModuleName → String) :
    List ModuleName → List ModuleName → List Event
  | [], installed => installed.map (fun m => Event.modLine '?' m (descr m))
  | m :: ms, installed =>
    if m ∈ installed then
      Event.modLine 'x' m (descr m) :: listLoopTrace descr ms (installed.erase m)
    else
      Event.modLine ' ' m (descr m) :: listLoopTrace descr ms installed

/-- The three lines printed under `kiwi.say('update results')`. -/
def updResultsEvents (nf nfl : Nat) : List Event :=
  [Event.say "update results",
   Event.out ("\t* " ++ toString nf ++ " modules were updated"),
   Event.out ("\t* " ++ toString nfl ++ " modules could not be updated")]

/-- The lines printed under `kiwi.say('fetch results')`; the unchanged
count line appears only when the three partitions do not cover the
request (Python computes it with int subtraction). -/
def fetchResultsEvents (nmod nf nu nfl : Nat) : List Event :=
  [Event.say "fetch results",
   Event.out ("\t* " ++ toString nf ++ " new modules fetched"),
   Event.out ("\t* " ++ toString nfl ++ " modules could not be fetched"),
   Event.out ("\t* " ++ toString nu ++ " modules have an available update")]
  ++ (if nmod ≠ nf + nu + nfl then
        [Event.out ("\t* " ++ toString ((nmod : Int) - nf - nu - nfl) ++
          " modules are present and up to date")]
      else [])

/-- Tail of the get/update branch after the request set has been
collected: the `kiwi.fetch_modules` call, the fetch-results report (only
when `args.get_modules` is truthy), the confirmation-gated second
`fetch_modules` pass over the updatable modules (declining exits with
status 0), and the update-results report (when `args.update_modules` is
truthy or updatable modules were found). -/
def syncTail (env : Env) (getT updT updFlag : Bool)
    (modules : List ModuleName) : List Event :=
  let r := env.fetchF modules updFlag
  Event.engine modules updFlag ::
    ((if getT then
        fetchResultsEvents modules.length r.1.length r.2.1.length r.2.2.length
      else [])
     ++ (if 0 < r.2.1.length then
           (if env.answer = "y" then
             let r2 := env.fetchF r.2.1 true
             Event.ask env.answer :: Event.engine r.2.1 true ::
               updResultsEvents r2.1.length r2.2.2.length
           else [Event.ask env.answer, Event.exited 0])
         else if updT then updResultsEvents r.1.length r.2.2.length else []))

/-- Shallow embedding of `run(kiwi, args)` from runtime/client.py as the
trace of observable events it produces.  Mirrors the source: the list
branch degrades to `modules = installed[:]` when the registry is
unreachable; the get/update branch validates the 'all' sentinel before
collecting the request set (remote catalog for get, installed list for
update) and calling the engine. -/
def run (env : Env) (args : Args) : List Event :=
  if args.list_modules = true then
    Event.netList ::
      (match env.remote with
       | some r => listLoopTrace env.descr r env.installed
       | none =>
         Event.say "could not reach remote to fetch module list, listing local modules only" ::
           listLoopTrace env.descr env.installed env.installed)
  else if (truthy args.get_modules || truthy args.update_modules) = true then
    let modules0 :=
      if truthy args.get_modules = true then args.get_modules.getD []
      else args.update_modules.getD []
    let updFlag := args.update_modules.isSome
    if "all" ∈ modules0 then
      if 1 < modules0.length then
        [Event.say "can\x27t have \x27all\x27 argument with other modules listed",
         Event.out "Possible solutions:",
         Event.out ("\t* kiwi " ++ env.argv1 ++ " all"),
         Event.out ("\t* kiwi " ++ env.argv1 ++ " " ++
           String.intercalate " " (modules0.filter (fun x => decide (x ≠ "all")))),
         Event.exited 1]
      else
        if truthy args.get_modules = true then
          Event.netList ::
            (match env.remote with
             | none =>
               [Event.say "could not reach remote to fetch module list", Event.exited 1]
             | some r =>
               syncTail env (truthy args.get_modules) (truthy args.update_modules) updFlag r)
        else
          syncTail env (truthy args.get_modules) (truthy args.update_modules) updFlag
            env.installed
    else
      syncTail env (truthy args.get_modules) (truthy args.update_modules) updFlag modules0
  else if args.self_update = true then
    if env.selfUpdOk = true then [Event.say "I\x27m up to date"] else []
  else []

/-- Modelled from the spec: the engine environment of section 4.4 — the
remote catalog snapshot and per-module transport success of
`downloadModule` (false models UnreachableRegistry / NotFound while
downloading that module's content). -/
structure EngineEnv where
  catalog : Catalog
  downloadOk : ModuleName → Bool

/-- Modelled from the spec: classification of one requested module by
`fetch_modules` (section 4.4 Fetch/Update, resolved as section 9 directs:
presence in both the installed set and the remote catalog is the trigger
for flagging a module as updatable during a plain fetch).  A module that
is installed and not being updated is flagged updatable when the catalog
still advertises it, and left unchanged otherwise (no download); any
other module is resolved (section 4.3) and downloaded together with its
not-yet-installed dependencies, landing in `fetched` on success and in
`failed` on any resolution or download error.  The accumulator carries
(fetched, updatable, failed) and the installed set, which grows with each
successful install. -/
def fetchOne (eenv : EngineEnv) (update : Bool)
    (st : (List ModuleName × List ModuleName × List ModuleName) × List ModuleName)
    (m : ModuleName) :
    (List ModuleName × List ModuleName × List ModuleName) × List ModuleName :=
  let f := st.1.1
  let u := st.1.2.1
  let fl := st.1.2.2
  let inst := st.2
  if m ∈ inst ∧ update = false then
    if m ∈ catNames eenv.catalog then ((f, u ++ [m], fl), inst)
    else ((f, u, fl), inst)
  else
    match visit eenv.catalog inst [] [] m with
    | .error _ => ((f, u, fl ++ [m]), inst)
    | .ok order =>
      if order.all eenv.downloadOk then
        ((f ++ [m], u, fl), inst ++ order.filter (fun x => decide (x ∉ inst)))
      else ((f, u, fl ++ [m]), inst)

/-- Modelled from the spec: `kiwi.fetch_modules(modules, update)` of
section 4.4 — classifies every requested module into the (fetched,
updatable, failed) triple, threading the installed set; the final
installed set is returned alongside the triple. -/
def fetch_modules (eenv : EngineEnv) (installed : List ModuleName)
    (modules : List ModuleName) (update : Bool) :
    (List ModuleName × List ModuleName × List ModuleName) × List ModuleName :=
  modules.foldl (fetchOne eenv update) (([], [], []), installed)

/-- True exactly on `fetch_modules` call events. -/
def isEngineEvent : Event → Bool
  | Event.engine _ _ => true
  | _ => false

/-- True exactly on module listing lines that name `m`. -/
def isModLineFor (m : ModuleName) : Event → Bool
  | Event.modLine _ n _ => n == m
  | _ => false

/-- Classification property of a List run against remote list `r`: a line
for module `m` appears exactly once when `m` is known locally or
remotely, with mark 'x' when it is in both, ' ' when remote-only and '?'
when installed-only. -/
def listClassifies (env : Env) (args : Args) (r : List ModuleName)
    (m : ModuleName) : Prop :=
  (Event.modLine 'x' m (env.descr m) ∈ run env args ↔ m ∈ r ∧ m ∈ env.installed)
  ∧ (Event.modLine ' ' m (env.descr m) ∈ run env args ↔ m ∈ r ∧ m ∉ env.installed)
  ∧ (Event.modLine '?' m (env.descr m) ∈ run env args ↔ m ∈ env.installed ∧ m ∉ r)
  ∧ (run env args).countP (isModLineFor m) =
      (if m ∈ r ∨ m ∈ env.installed then 1 else 0)

/-- Partition property of one `fetch_modules` call: the three returned
classes are pairwise disjoint, drawn from the request, every requested
module is in a class or unchanged, and the unchanged remainder accounts
exactly for the request size. -/
def fetchPartition (eenv : EngineEnv) (inst0 mods : List ModuleName)
    (upd : Bool) : Prop :=
  let res := fetch_modules eenv inst0 mods upd
  let f := res.1.1
  let u := res.1.2.1
  let fl := res.1.2.2
  let unchanged := mods.filter (fun x => decide (x ∉ f) && decide (x ∉ u) && decide (x ∉ fl))
  f.Disjoint u ∧ f.Disjoint fl ∧ u.Disjoint fl
  ∧ (∀ m, (m ∈ f ∨ m ∈ u ∨ m ∈ fl) → m ∈ mods)
  ∧ (∀ m, m ∈ mods → m ∈ f ∨ m ∈ u ∨ m ∈ fl ∨ m ∈ unchanged)
  ∧ unchanged.length + (f.length + u.length + fl.length) = mods.length

/-- Confirmation gating of a get run whose collected request is `mods`:
an update pass (a `fetch_modules` call with the update flag) happens iff
outdated modules were reported and the prompt answered "y", and never
before the prompt. -/
def promptGate (env : Env) (args : Args) (mods : List ModuleName) : Prop :=
  ((∃ ms, Event.engine ms true ∈ run env args) ↔
      ((env.fetchF mods false).2.1 ≠ [] ∧ env.answer = "y"))
  ∧ ((env.fetchF mods false).2.1 ≠ [] →
      ∃ pre post, run env args = pre ++ Event.ask env.answer :: post ∧
        ∀ ms, Event.engine ms true ∉ pre)

/-- Outcome of declining the outdated-modules prompt: the trace ends with
the prompt and `sys.exit(0)`, and the engine was called exactly once. -/
def declineStops (env : Env) (args : Args) : Prop :=
  (∃ pre, run env args = pre ++ [Event.ask env.answer, Event.exited 0]) ∧
  (run env args).countP isEngineEvent = 1

/-- Direct dependency step of the catalog graph that resolution actually
walks: `b` is a declared dependency of `a` and is not installed. -/
def dependsDirect (cat : Catalog) (installed : List ModuleName)
    (a b : ModuleName) : Prop :=
  b ∈ (lookupDeps cat a).getD [] ∧ b ∉ installed

instance (cat : Catalog) (installed : List ModuleName) (a b : ModuleName) :
    Decidable (dependsDirect cat installed a b) :=
  inferInstanceAs (Decidable (b ∈ (lookupDeps cat a).getD [] ∧ b ∉ installed))

/-- A catalog is closed when every declared dependency is itself
advertised by the catalog. -/
def ClosedCat (cat : Catalog) : Prop :=
  ∀ e, e ∈ cat → ∀ d, d ∈ e.2 → d ∈ cat.map Prod.fst

instance (cat : Catalog) : Decidable (ClosedCat cat) :=
  inferInstanceAs (Decidable (∀ e, e ∈ cat → ∀ d, d ∈ e.2 → d ∈ cat.map Prod.fst))

/-- Order invariant of a resolution result: every non-installed declared
dependency of a listed module appears strictly before it. -/
def resolvedInv (cat : Catalog) (installed : List ModuleName)
    (out : List ModuleName) : Prop :=
  ∀ l1 (m : ModuleName) l2, out = l1 ++ m :: l2 →
    ∀ d, dependsDirect cat installed m d → d ∈ l1

/-- Fixture: description oracle returning empty descriptions. -/
def descrEmpty : ModuleName → String := fun _ => ""

/-- Fixture: an engine stub returning empty partitions. -/
def fetchEmptyStub : List ModuleName → Bool →
    List ModuleName × List ModuleName × List ModuleName := fun _ _ => ([], [], [])

/-- Fixture: an engine stub reporting module U as updatable. -/
def fetchUpdStub : List ModuleName → Bool →
    List ModuleName × List ModuleName × List ModuleName := fun _ _ => ([], ["U"], [])

/-- Fixture: two installed modules and an unreachable registry. -/
def envListNone : Env where
  installed := ["X", "Y"]
  remote := none
  descr := descrEmpty
  fetchF := fetchEmptyStub
  answer := "n"
  argv1 := "list"
  selfUpdOk := false

/-- Fixture: installed {A, C}, reachable registry advertising {A, B}. -/
def envListBoth : Env :=
  { envListNone with installed := ["A", "C"], remote := some ["A", "B"] }

/-- Fixture: environment whose engine reports an updatable module and
whose prompt answer is "y". -/
def envPromptY : Env := { envListNone with fetchF := fetchUpdStub, answer := "y" }

/-- Fixture: like envPromptY but the prompt is answered "n". -/
def envPromptN : Env := { envListNone with fetchF := fetchUpdStub, answer := "n" }

/-- Fixture: the `list` command line. -/
def argsListCmd : Args := ⟨true, none, none, false⟩

/-- Fixture: `get all m1`, the rejected mixed request. -/
def argsConflict : Args := ⟨false, some ["all", "m1"], none, false⟩

/-- Fixture: `update all`. -/
def argsUpdateAll : Args := ⟨false, none, some ["all"], false⟩

/-- Fixture: `get m1`. -/
def argsGetOne : Args := ⟨false, some ["m1"], none, false⟩

/-- Fixture: `update m1`. -/
def argsUpdateOne : Args := ⟨false, none, some ["m1"], false⟩

/-- Fixture: a one-module catalog whose downloads always succeed. -/
def eeSolo : EngineEnv := ⟨[("A", [])], fun _ => true⟩

/-- Fixture: the two-module cyclic catalog A -> B -> A. -/
def catCycle : Catalog := [("A", ["B"]), ("B", ["A"])]

theorem listLoopTrace_self (descr : ModuleName → String) :
    ∀ l : List ModuleName,
      listLoopTrace descr l l = l.map (fun m => Event.modLine 'x' m (descr m)) := by
  intro l
  induction l with
  | nil => simp [listLoopTrace]
  | cons m ms ih =>
    rw [listLoopTrace]
    simp only [List.mem_cons, true_or, if_true, List.erase_cons_head, List.map_cons]
    rw [ih]

theorem run_list_none_eq (env : Env) (args : Args)
    (hl : args.list_modules = true) (hr : env.remote = none) :
    run env args = Event.netList ::
      Event.say "could not reach remote to fetch module list, listing local modules only" ::
      env.installed.map (fun m => Event.modLine 'x' m (env.descr m)) := by
  unfold run
  rw [hl, hr]
  simp [listLoopTrace_self]

/-- Claim C1 (counterexample): with the registry unreachable and module X
installed, the List run marks X with 'x' (installed-known) and prints no
'?' line at all, contrary to the claimed installed-unknown marking. -/
theorem C1_counterexample :
    envListNone.remote = none ∧ "X" ∈ envListNone.installed ∧
    Event.modLine 'x' "X" "" ∈ run envListNone argsListCmd ∧
    (∀ d, Event.modLine '?' "X" d ∉ run envListNone argsListCmd) := by
  refine ⟨rfl, by decide, ?_, ?_⟩
  · rw [run_list_none_eq envListNone argsListCmd rfl rfl]
    simp [envListNone, descrEmpty]
  · intro d hd
    rw [run_list_none_eq envListNone argsListCmd rfl rfl] at hd
    simp [envListNone, descrEmpty] at hd

/-- Claim C1 (amended): when the registry is unreachable, the List run
outputs exactly the locally installed modules, in order, every one marked
with 'x' (the installed-known mark) — none is marked '?'. -/
theorem C1_list_unreachable_marks_installed (env : Env) (args : Args)
    (hl : args.list_modules = true) (hr : env.remote = none) :
    run env args = Event.netList ::
      Event.say "could not reach remote to fetch module list, listing local modules only" ::
      env.installed.map (fun m => Event.modLine 'x' m (env.descr m)) :=
  run_list_none_eq env args hl hr

/-- Witness for C1_list_unreachable_marks_installed at a concrete input. -/
theorem C1_witness :
    argsListCmd.list_modules = true ∧ envListNone.remote = none ∧
    run envListNone argsListCmd = Event.netList ::
      Event.say "could not reach remote to fetch module list, listing local modules only" ::
      envListNone.installed.map (fun m => Event.modLine 'x' m (envListNone.descr m)) :=
  ⟨rfl, rfl, C1_list_unreachable_marks_installed envListNone argsListCmd rfl rfl⟩

/-- Claim C5: with the registry unreachable the List run still completes:
it emits the non-fatal warning through kiwi.say and never calls
sys.exit. -/
theorem C5_list_unreachable_nonfatal (env : Env) (args : Args)
    (hl : args.list_modules = true) (hr : env.remote = none) :
    Event.say "could not reach remote to fetch module list, listing local modules only"
        ∈ run env args ∧
    ∀ c, Event.exited c ∉ run env args := by
  rw [run_list_none_eq env args hl hr]
  constructor
  · exact List.mem_cons_of_mem _ (List.mem_cons_self _ _)
  · intro c hc
    simp [List.mem_cons, List.mem_map] at hc

/-- Witness for C5_list_unreachable_nonfatal at a concrete input. -/
theorem C5_witness :
    argsListCmd.list_modules = true ∧ envListNone.remote = none ∧
    (Event.say "could not reach remote to fetch module list, listing local modules only"
        ∈ run envListNone argsListCmd ∧
      ∀ c, Event.exited c ∉ run envListNone argsListCmd) :=
  ⟨rfl, rfl, C5_list_unreachable_nonfatal envListNone argsListCmd rfl rfl⟩
theorem filter_notmem_erase_eq (m : ModuleName) (ms : List ModuleName) :
    ∀ inst : List ModuleName, inst.Nodup →
      (inst.erase m).filter (fun x => decide (x ∉ ms)) =
        inst.filter (fun x => decide (x ∉ m :: ms)) := by
  intro inst
  induction inst with
  | nil => intro _; rfl
  | cons a as ih =>
    intro hnd
    have hnas : as.Nodup := hnd.of_cons
    by_cases ham : a = m
    · subst ham
      rw [List.erase_cons_head, List.filter_cons]
      have hcond : decide (a ∉ a :: ms) = false := by simp
      rw [hcond]
      simp only [Bool.false_eq_true, if_false]
      apply List.filter_congr
      intro x hx
      have hma : a ∉ as := (List.nodup_cons.mp hnd).1
      have hxm : x ≠ a := fun h => hma (h ▸ hx)
      simp [List.mem_cons, hxm]
    · rw [List.erase_cons_tail]
      · rw [List.filter_cons, List.filter_cons]
        have hceq : (decide (a ∉ ms)) = (decide (a ∉ m :: ms)) := by
          simp [List.mem_cons, ham]
        rw [hceq, ih hnas]
      · simp [ham]

theorem listLoopTrace_closed (descr : ModuleName → String) :
    ∀ (r inst : List ModuleName), r.Nodup → inst.Nodup →
      listLoopTrace descr r inst =
        r.map (fun m => Event.modLine (if m ∈ inst then 'x' else ' ') m (descr m)) ++
        (inst.filter (fun x => decide (x ∉ r))).map
          (fun m => Event.modLine '?' m (descr m)) := by
  intro r
  induction r with
  | nil =>
    intro inst _ _
    simp [listLoopTrace]
  | cons m ms ih =>
    intro inst hnr hni
    have hnms : ms.Nodup := hnr.of_cons
    have hmms : m ∉ ms := (List.nodup_cons.mp hnr).1
    rw [listLoopTrace, List.map_cons, List.cons_append]
    by_cases hm : m ∈ inst
    · rw [if_pos hm, if_pos hm, ih (inst.erase m) hnms (hni.erase m)]
      congr 1
      congr 1
      · apply List.map_congr_left
        intro x hx
        have hxm : x ≠ m := fun h => hmms (h ▸ hx)
        simp [List.mem_erase_of_ne hxm]
      · exact congrArg (List.map _) (filter_notmem_erase_eq m ms inst hni)
    · rw [if_neg hm, if_neg hm, ih inst hnms hni]
      congr 1
      have hfeq : inst.filter (fun x => decide (x ∉ ms)) =
          inst.filter (fun x => decide (x ∉ m :: ms)) := by
        apply List.filter_congr
        intro x hx
        have hxm : x ≠ m := fun h => hm (h ▸ hx)
        simp [List.mem_cons, hxm]
      rw [hfeq]

theorem run_list_some_eq (env : Env) (args : Args) (r : List ModuleName)
    (hl : args.list_modules = true) (hr : env.remote = some r)
    (hnr : r.Nodup) (hni : env.installed.Nodup) :
    run env args = Event.netList ::
      (r.map (fun m => Event.modLine (if m ∈ env.installed then 'x' else ' ') m (env.descr m)) ++
       (env.installed.filter (fun x => decide (x ∉ r))).map
         (fun m => Event.modLine '?' m (env.descr m))) := by
  unfold run
  rw [hl, hr]
  simp only [if_true]
  rw [listLoopTrace_closed env.descr r env.installed hnr hni]

theorem countP_modLine_map (m : ModuleName) (g : ModuleName → Char)
    (dd : ModuleName → String) :
    ∀ l : List ModuleName, l.Nodup →
      (l.map (fun x => Event.modLine (g x) x (dd x))).countP (isModLineFor m) =
        if m ∈ l then 1 else 0 := by
  intro l
  induction l with
  | nil => intro _; simp
  | cons a as ih =>
    intro hnd
    rw [List.map_cons, List.countP_cons, ih hnd.of_cons]
    by_cases ham : a = m
    · subst ham
      have hma : a ∉ as := (List.nodup_cons.mp hnd).1
      simp [isModLineFor, hma]
    · have : isModLineFor m (Event.modLine (g a) a (dd a)) = false := by
        simp [isModLineFor, ham]
      rw [this]
      simp [List.mem_cons, Ne.symm ham, ham]

/-- Claim C6: with a reachable registry, every module in the union of the
installed and remote name sets is listed exactly once — marked 'x' when
in both, ' ' when remote-only, '?' when installed-only. -/
theorem C6_list_classification (env : Env) (args : Args) (r : List ModuleName)
    (hl : args.list_modules = true) (hr : env.remote = some r)
    (hnr : r.Nodup) (hni : env.installed.Nodup) (m : ModuleName) :
    listClassifies env args r m := by
  unfold listClassifies
  rw [run_list_some_eq env args r hl hr hnr hni]
  refine ⟨?_, ?_, ?_, ?_⟩
  · constructor
    · intro hmem
      simp only [List.mem_cons, List.mem_append, List.mem_map, List.mem_filter] at hmem
      rcases hmem with h | h | h
      · cases h
      · obtain ⟨x, hx, heq⟩ := h
        by_cases hxi : x ∈ env.installed
        · rw [if_pos hxi] at heq
          cases heq
          exact ⟨hx, hxi⟩
        · rw [if_neg hxi] at heq
          cases heq
      · obtain ⟨x, _, heq⟩ := h
        cases heq
    · rintro ⟨hmr, hmi⟩
      simp only [List.mem_cons, List.mem_append, List.mem_map]
      right; left
      exact ⟨m, hmr, by rw [if_pos hmi]⟩
  · constructor
    · intro hmem
      simp only [List.mem_cons, List.mem_append, List.mem_map, List.mem_filter] at hmem
      rcases hmem with h | h | h
      · cases h
      · obtain ⟨x, hx, heq⟩ := h
        by_cases hxi : x ∈ env.installed
        · rw [if_pos hxi] at heq
          cases heq
        · rw [if_neg hxi] at heq
          cases heq
          exact ⟨hx, hxi⟩
      · obtain ⟨x, _, heq⟩ := h
        cases heq
    · rintro ⟨hmr, hmi⟩
      simp only [List.mem_cons, List.mem_append, List.mem_map]
      right; left
      exact ⟨m, hmr, by rw [if_neg hmi]⟩
  · constructor
    · intro hmem
      simp only [List.mem_cons, List.mem_append, List.mem_map, List.mem_filter] at hmem
      rcases hmem with h | h | h
      · cases h
      · obtain ⟨x, hx, heq⟩ := h
        by_cases hxi : x ∈ env.installed
        · rw [if_pos hxi] at heq
          cases heq
        · rw [if_neg hxi] at heq
          cases heq
      · obtain ⟨x, hx, heq⟩ := h
        cases heq
        simp only [decide_eq_true_eq] at hx
        exact ⟨hx.1, hx.2⟩
    · rintro ⟨hmi, hmr⟩
      simp only [List.mem_cons, List.mem_append, List.mem_map]
      right; right
      refine ⟨m, List.mem_filter_of_mem hmi (by simpa using hmr), rfl⟩
  · rw [List.countP_cons]
    have h0 : isModLineFor m Event.netList = false := rfl
    rw [h0]
    rw [List.countP_append]
    rw [countP_modLine_map m _ env.descr r hnr]
    rw [countP_modLine_map m _ env.descr _ (hni.filter _)]
    have hmf : m ∈ env.installed.filter (fun x => decide (x ∉ r)) ↔
        m ∈ env.installed ∧ m ∉ r := by
      simp [List.mem_filter]
    by_cases hmr : m ∈ r
    · by_cases hmi : m ∈ env.installed
      · simp [hmr, hmi, hmf]
      · simp [hmr, hmi, hmf]
    · by_cases hmi : m ∈ env.installed
      · simp [hmr, hmi, hmf]
      · simp [hmr, hmi, hmf]

/-- Witness for C6_list_classification at a concrete input. -/
theorem C6_witness :
    argsListCmd.list_modules = true ∧ envListBoth.remote = some ["A", "B"] ∧
    (["A", "B"] : List ModuleName).Nodup ∧ envListBoth.installed.Nodup ∧
    listClassifies envListBoth argsListCmd ["A", "B"] "A" :=
  ⟨rfl, rfl, by decide, by decide,
    C6_list_classification envListBoth argsListCmd ["A", "B"] rfl rfl
      (by decide) (by decide) "A"⟩

theorem engine_not_mem_fetchResults (ms : List ModuleName) (b : Bool)
    (n1 n2 n3 n4 : Nat) : Event.engine ms b ∉ fetchResultsEvents n1 n2 n3 n4 := by
  unfold fetchResultsEvents
  split <;> simp

theorem netList_not_mem_fetchResults (n1 n2 n3 n4 : Nat) :
    Event.netList ∉ fetchResultsEvents n1 n2 n3 n4 := by
  unfold fetchResultsEvents
  split <;> simp

theorem engine_not_mem_updResults (ms : List ModuleName) (b : Bool)
    (n1 n2 : Nat) : Event.engine ms b ∉ updResultsEvents n1 n2 := by
  simp [updResultsEvents]

theorem netList_not_mem_updResults (n1 n2 : Nat) :
    Event.netList ∉ updResultsEvents n1 n2 := by
  simp [updResultsEvents]

theorem countP_isEngine_fetchResults (n1 n2 n3 n4 : Nat) :
    (fetchResultsEvents n1 n2 n3 n4).countP isEngineEvent = 0 := by
  unfold fetchResultsEvents
  split <;> simp [isEngineEvent]

theorem countP_isEngine_updResults (n1 n2 : Nat) :
    (updResultsEvents n1 n2).countP isEngineEvent = 0 := by
  simp [updResultsEvents, isEngineEvent]

theorem netList_not_mem_syncTail (env : Env) (getT updT updFlag : Bool)
    (mods : List ModuleName) :
    Event.netList ∉ syncTail env getT updT updFlag mods := by
  unfold syncTail
  intro h
  simp only [List.mem_cons, List.mem_append] at h
  rcases h with h | h | h
  · cases h
  · revert h
    split
    · exact netList_not_mem_fetchResults _ _ _ _
    · simp
  · revert h
    split
    · split
      · intro h
        simp only [List.mem_cons] at h
        rcases h with h | h | h
        · cases h
        · cases h
        · exact netList_not_mem_updResults _ _ h
      · simp
    · split
      · exact netList_not_mem_updResults _ _
      · simp

theorem truthy_some_ne (gs : List ModuleName) (h : gs ≠ []) :
    truthy (some gs) = true := by
  cases gs with
  | nil => exact absurd rfl h
  | cons a l => rfl

theorem run_get_eq (env : Env) (args : Args) (gs : List ModuleName)
    (hl : args.list_modules = false) (hg : args.get_modules = some gs)
    (hne : gs ≠ []) (hu : args.update_modules = none) :
    run env args =
      if "all" ∈ gs then
        (if 1 < gs.length then
          [Event.say "can\x27t have \x27all\x27 argument with other modules listed",
           Event.out "Possible solutions:",
           Event.out ("\t* kiwi " ++ env.argv1 ++ " all"),
           Event.out ("\t* kiwi " ++ env.argv1 ++ " " ++
             String.intercalate " " (gs.filter (fun x => decide (x ≠ "all")))),
           Event.exited 1]
        else
          Event.netList ::
            (match env.remote with
             | none =>
               [Event.say "could not reach remote to fetch module list", Event.exited 1]
             | some r => syncTail env true false false r))
      else syncTail env true false false gs := by
  have hg' : truthy args.get_modules = true := by rw [hg]; exact truthy_some_ne gs hne
  have hu' : truthy args.update_modules = false := by rw [hu]; rfl
  unfold run
  rw [hl, hg', hu', hg, hu]
  simp only [Bool.false_eq_true, if_false, Bool.true_or, if_true, Option.getD_some,
    Option.isSome_none, Option.getD_none]

theorem run_update_eq (env : Env) (args : Args) (gs : List ModuleName)
    (hl : args.list_modules = false) (hg : args.get_modules = none)
    (hu : args.update_modules = some gs) (hne : gs ≠ []) :
    run env args =
      if "all" ∈ gs then
        (if 1 < gs.length then
          [Event.say "can\x27t have \x27all\x27 argument with other modules listed",
           Event.out "Possible solutions:",
           Event.out ("\t* kiwi " ++ env.argv1 ++ " all"),
           Event.out ("\t* kiwi " ++ env.argv1 ++ " " ++
             String.intercalate " " (gs.filter (fun x => decide (x ≠ "all")))),
           Event.exited 1]
        else syncTail env false true true env.installed)
      else syncTail env false true true gs := by
  have hu' : truthy args.update_modules = true := by rw [hu]; exact truthy_some_ne gs hne
  have hg' : truthy args.get_modules = false := by rw [hg]; rfl
  unfold run
  rw [hl, hg', hu', hg, hu]
  simp only [Bool.false_eq_true, if_false, Bool.false_or, if_true, Option.getD_some,
    Option.isSome_some]

/-- Claim C4: a get or update request mixing the 'all' sentinel with other
module names produces only the usage message and sys.exit(1) — no
registry call and no engine call happen. -/
theorem C4_all_conflict (env : Env) (args : Args) (gs : List ModuleName)
    (hl : args.list_modules = false)
    (hshape : (args.get_modules = some gs ∧ args.update_modules = none) ∨
      (args.get_modules = none ∧ args.update_modules = some gs))
    (hall : "all" ∈ gs) (hlen : 1 < gs.length) :
    run env args =
      [Event.say "can\x27t have \x27all\x27 argument with other modules listed",
       Event.out "Possible solutions:",
       Event.out ("\t* kiwi " ++ env.argv1 ++ " all"),
       Event.out ("\t* kiwi " ++ env.argv1 ++ " " ++
         String.intercalate " " (gs.filter (fun x => decide (x ≠ "all")))),
       Event.exited 1] ∧
    Event.netList ∉ run env args ∧
    (∀ ms b, Event.engine ms b ∉ run env args) ∧
    Event.exited 1 ∈ run env args := by
  have hne : gs ≠ [] := by
    intro h
    rw [h] at hall
    cases hall
  have heq : run env args =
      [Event.say "can\x27t have \x27all\x27 argument with other modules listed",
       Event.out "Possible solutions:",
       Event.out ("\t* kiwi " ++ env.argv1 ++ " all"),
       Event.out ("\t* kiwi " ++ env.argv1 ++ " " ++
         String.intercalate " " (gs.filter (fun x => decide (x ≠ "all")))),
       Event.exited 1] := by
    rcases hshape with ⟨hg, hu⟩ | ⟨hg, hu⟩
    · rw [run_get_eq env args gs hl hg hne hu, if_pos hall, if_pos hlen]
    · rw [run_update_eq env args gs hl hg hu hne, if_pos hall, if_pos hlen]
  refine ⟨heq, ?_, ?_, ?_⟩
  · rw [heq]; simp
  · intro ms b; rw [heq]; simp
  · rw [heq]; simp

/-- Witness for C4_all_conflict at a concrete input. -/
theorem C4_witness :
    argsConflict.list_modules = false ∧
    (argsConflict.get_modules = some ["all", "m1"] ∧
      argsConflict.update_modules = none) ∧
    "all" ∈ (["all", "m1"] : List ModuleName) ∧
    1 < (["all", "m1"] : List ModuleName).length ∧
    (run envListNone argsConflict =
      [Event.say "can\x27t have \x27all\x27 argument with other modules listed",
       Event.out "Possible solutions:",
       Event.out ("\t* kiwi " ++ envListNone.argv1 ++ " all"),
       Event.out ("\t* kiwi " ++ envListNone.argv1 ++ " " ++
         String.intercalate " "
           ((["all", "m1"] : List ModuleName).filter (fun x => decide (x ≠ "all")))),
       Event.exited 1] ∧
     Event.netList ∉ run envListNone argsConflict ∧
     (∀ ms b, Event.engine ms b ∉ run envListNone argsConflict) ∧
     Event.exited 1 ∈ run envListNone argsConflict) :=
  ⟨rfl, ⟨rfl, rfl⟩, by decide, by decide,
    C4_all_conflict envListNone argsConflict ["all", "m1"] rfl
      (Or.inl ⟨rfl, rfl⟩) (by decide) (by decide)⟩

/-- Claim C7: `update all` calls the engine first thing with the
installed-module list and the update flag set, and never consults the
remote catalog. -/
theorem C7_update_all (env : Env) (args : Args)
    (hl : args.list_modules = false) (hg : args.get_modules = none)
    (hu : args.update_modules = some ["all"]) :
    (run env args).head? = some (Event.engine env.installed true) ∧
    Event.netList ∉ run env args := by
  have heq : run env args = syncTail env false true true env.installed := by
    rw [run_update_eq env args ["all"] hl hg hu (by simp)]
    simp
  rw [heq]
  constructor
  · rw [syncTail]
    rfl
  · exact netList_not_mem_syncTail env false true true env.installed


/-- Witness for C7_update_all at a concrete input. -/
theorem C7_witness :
    argsUpdateAll.list_modules = false ∧ argsUpdateAll.get_modules = none ∧
    argsUpdateAll.update_modules = some ["all"] ∧
    ((run envListNone argsUpdateAll).head? =
        some (Event.engine envListNone.installed true) ∧
      Event.netList ∉ run envListNone argsUpdateAll) :=
  ⟨rfl, rfl, rfl, C7_update_all envListNone argsUpdateAll rfl rfl rfl⟩

theorem syncTail_engine_true_iff (env : Env) (getT updT : Bool)
    (mods : List ModuleName) :
    (∃ ms, Event.engine ms true ∈ syncTail env getT updT false mods) ↔
      ((env.fetchF mods false).2.1 ≠ [] ∧ env.answer = "y") := by
  simp only [syncTail]
  by_cases h0 : 0 < (env.fetchF mods false).2.1.length
  · rw [if_pos h0]
    have hne : (env.fetchF mods false).2.1 ≠ [] := by
      intro h
      rw [h] at h0
      exact absurd h0 (by simp)
    by_cases hy : env.answer = "y"
    · rw [if_pos hy]
      constructor
      · exact fun _ => ⟨hne, hy⟩
      · intro _
        exact ⟨(env.fetchF mods false).2.1, by simp⟩
    · rw [if_neg hy]
      simp only [hne, hy, and_false, iff_false]
      rintro ⟨ms, hms⟩
      simp only [List.mem_cons, List.mem_append] at hms
      rcases hms with h | h | h
      · cases h
      · revert h
        split
        · exact engine_not_mem_fetchResults _ _ _ _ _ _
        · simp
      · simp at h
  · rw [if_neg h0]
    have hemp : (env.fetchF mods false).2.1 = [] := by
      cases hc : (env.fetchF mods false).2.1 with
      | nil => rfl
      | cons a l => rw [hc] at h0; exact absurd (by simp) h0
    simp only [hemp, ne_eq, not_true_eq_false, false_and, iff_false]
    rintro ⟨ms, hms⟩
    simp only [List.mem_cons, List.mem_append] at hms
    rcases hms with h | h | h
    · cases h
    · revert h
      split
      · exact engine_not_mem_fetchResults _ _ _ _ _ _
      · simp
    · revert h
      split
      · exact engine_not_mem_updResults _ _ _ _
      · simp

theorem syncTail_ask_split (env : Env) (getT updT : Bool)
    (mods : List ModuleName) (hu : (env.fetchF mods false).2.1 ≠ []) :
    ∃ pre post, syncTail env getT updT false mods =
        pre ++ Event.ask env.answer :: post ∧
      ∀ ms, Event.engine ms true ∉ pre := by
  simp only [syncTail]
  have h0 : 0 < (env.fetchF mods false).2.1.length := List.length_pos.mpr hu
  rw [if_pos h0]
  refine ⟨Event.engine mods false ::
    (if getT then
      fetchResultsEvents mods.length (env.fetchF mods false).1.length
        (env.fetchF mods false).2.1.length (env.fetchF mods false).2.2.length
     else []), ?_, ?_, ?_⟩
  · exact if env.answer = "y" then
      Event.engine (env.fetchF mods false).2.1 true ::
        updResultsEvents (env.fetchF (env.fetchF mods false).2.1 true).1.length
          (env.fetchF (env.fetchF mods false).2.1 true).2.2.length
    else [Event.exited 0]
  · by_cases hy : env.answer = "y"
    · rw [if_pos hy, if_pos hy]
      simp
    · rw [if_neg hy, if_neg hy]
      simp
  · intro ms hms
    simp only [List.mem_cons] at hms
    rcases hms with h | h
    · cases h
    · revert h
      split
      · exact engine_not_mem_fetchResults _ _ _ _ _ _
      · simp

theorem syncTail_decline (env : Env) (getT updT updFlag : Bool)
    (mods : List ModuleName)
    (hu : (env.fetchF mods updFlag).2.1 ≠ []) (hn : env.answer ≠ "y") :
    (∃ pre, syncTail env getT updT updFlag mods =
        pre ++ [Event.ask env.answer, Event.exited 0]) ∧
    (syncTail env getT updT updFlag mods).countP isEngineEvent = 1 := by
  simp only [syncTail]
  have h0 : 0 < (env.fetchF mods updFlag).2.1.length := List.length_pos.mpr hu
  rw [if_pos h0, if_neg hn]
  constructor
  · refine ⟨Event.engine mods updFlag ::
      (if getT then
        fetchResultsEvents mods.length (env.fetchF mods updFlag).1.length
          (env.fetchF mods updFlag).2.1.length (env.fetchF mods updFlag).2.2.length
       else []), ?_⟩
    simp
  · rw [List.countP_cons]
    have he : isEngineEvent (Event.engine mods updFlag) = true := rfl
    rw [he, List.countP_append]
    have hf : (if getT then
        fetchResultsEvents mods.length (env.fetchF mods updFlag).1.length
          (env.fetchF mods updFlag).2.1.length (env.fetchF mods updFlag).2.2.length
       else []).countP isEngineEvent = 0 := by
      split
      · exact countP_isEngine_fetchResults _ _ _ _
      · rfl
    rw [hf]
    rfl

/-- Claim C8: on a get run, the updatable modules reported by the engine
are re-fetched with the update flag iff the user answers "y" to the
confirmation prompt, and never before the prompt was shown. -/
theorem C8_prompt_gates_update (env : Env) (args : Args)
    (gs rlist : List ModuleName)
    (hl : args.list_modules = false) (hg : args.get_modules = some gs)
    (hne : gs ≠ []) (hu : args.update_modules = none)
    (hconf : ¬("all" ∈ gs ∧ 1 < gs.length))
    (hrem : "all" ∈ gs → env.remote = some rlist) :
    promptGate env args (if "all" ∈ gs then rlist else gs) := by
  by_cases hall : "all" ∈ gs
  · rw [if_pos hall]
    have hlen : ¬ 1 < gs.length := fun h => hconf ⟨hall, h⟩
    have hrem' := hrem hall
    have heq : run env args = Event.netList :: syncTail env true false false rlist := by
      rw [run_get_eq env args gs hl hg hne hu, if_pos hall, if_neg hlen, hrem']
    unfold promptGate
    constructor
    · rw [heq, ← syncTail_engine_true_iff env true false rlist]
      constructor
      · rintro ⟨ms, hms⟩
        rcases List.mem_cons.mp hms with h | h
        · cases h
        · exact ⟨ms, h⟩
      · rintro ⟨ms, hms⟩
        exact ⟨ms, List.mem_cons_of_mem _ hms⟩
    · intro hune
      obtain ⟨pre, post, hsp, hpre⟩ := syncTail_ask_split env true false rlist hune
      refine ⟨Event.netList :: pre, post, ?_, ?_⟩
      · rw [heq, hsp]
        rfl
      · intro ms hms
        rcases List.mem_cons.mp hms with h | h
        · cases h
        · exact hpre ms h
  · rw [if_neg hall]
    have heq : run env args = syncTail env true false false gs := by
      rw [run_get_eq env args gs hl hg hne hu, if_neg hall]
    unfold promptGate
    constructor
    · rw [heq]
      exact syncTail_engine_true_iff env true false gs
    · intro hune
      obtain ⟨pre, post, hsp, hpre⟩ := syncTail_ask_split env true false gs hune
      exact ⟨pre, post, by rw [heq, hsp], hpre⟩

/-- Witness for C8_prompt_gates_update at a concrete input. -/
theorem C8_witness :
    argsGetOne.list_modules = false ∧ argsGetOne.get_modules = some ["m1"] ∧
    (["m1"] : List ModuleName) ≠ [] ∧ argsGetOne.update_modules = none ∧
    ¬("all" ∈ (["m1"] : List ModuleName) ∧ 1 < (["m1"] : List ModuleName).length) ∧
    promptGate envPromptY argsGetOne
      (if "all" ∈ (["m1"] : List ModuleName) then [] else ["m1"]) :=
  ⟨rfl, rfl, by decide, rfl, by decide,
    C8_prompt_gates_update envPromptY argsGetOne ["m1"] [] rfl rfl (by decide)
      rfl (by decide) (fun h => absurd h (by decide))⟩

/-- Claim C10: when the outdated-modules prompt is declined with "n",
the run ends with the prompt and sys.exit(0): the engine is called
exactly once, so the installed set sees no second (update) pass. -/
theorem C10_decline_exits_zero (env : Env) (args : Args)
    (gs rlist : List ModuleName)
    (hl : args.list_modules = false)
    (hshape : (args.get_modules = some gs ∧ args.update_modules = none ∧
        (env.fetchF (if "all" ∈ gs then rlist else gs) false).2.1 ≠ []) ∨
      (args.get_modules = none ∧ args.update_modules = some gs ∧
        (env.fetchF (if "all" ∈ gs then env.installed else gs) true).2.1 ≠ []))
    (hne : gs ≠ [])
    (hconf : ¬("all" ∈ gs ∧ 1 < gs.length))
    (hrem : "all" ∈ gs → env.remote = some rlist)
    (hn : env.answer = "n") :
    declineStops env args := by
  have hny : env.answer ≠ "y" := by rw [hn]; decide
  rcases hshape with ⟨hg, hu, hupd⟩ | ⟨hg, hu, hupd⟩
  · by_cases hall : "all" ∈ gs
    · rw [if_pos hall] at hupd
      have hlen : ¬ 1 < gs.length := fun h => hconf ⟨hall, h⟩
      have heq : run env args = Event.netList :: syncTail env true false false rlist := by
        rw [run_get_eq env args gs hl hg hne hu, if_pos hall, if_neg hlen, hrem hall]
      obtain ⟨⟨pre, hpre⟩, hcnt⟩ := syncTail_decline env true false false rlist hupd hny
      unfold declineStops
      rw [heq]
      constructor
      · refine ⟨Event.netList :: pre, ?_⟩
        rw [hpre]
        rfl
      · rw [List.countP_cons, hcnt]
        rfl
    · rw [if_neg hall] at hupd
      have heq : run env args = syncTail env true false false gs := by
        rw [run_get_eq env args gs hl hg hne hu, if_neg hall]
      obtain ⟨⟨pre, hpre⟩, hcnt⟩ := syncTail_decline env true false false gs hupd hny
      unfold declineStops
      rw [heq]
      exact ⟨⟨pre, hpre⟩, hcnt⟩
  · by_cases hall : "all" ∈ gs
    · rw [if_pos hall] at hupd
      have hlen : ¬ 1 < gs.length := fun h => hconf ⟨hall, h⟩
      have heq : run env args = syncTail env false true true env.installed := by
        rw [run_update_eq env args gs hl hg hu hne, if_pos hall, if_neg hlen]
      obtain ⟨⟨pre, hpre⟩, hcnt⟩ :=
        syncTail_decline env false true true env.installed hupd hny
      unfold declineStops
      rw [heq]
      exact ⟨⟨pre, hpre⟩, hcnt⟩
    · rw [if_neg hall] at hupd
      have heq : run env args = syncTail env false true true gs := by
        rw [run_update_eq env args gs hl hg hu hne, if_neg hall]
      obtain ⟨⟨pre, hpre⟩, hcnt⟩ := syncTail_decline env false true true gs hupd hny
      unfold declineStops
      rw [heq]
      exact ⟨⟨pre, hpre⟩, hcnt⟩

/-- Witness for C10_decline_exits_zero at a concrete input. -/
theorem C10_witness :
    argsGetOne.list_modules = false ∧
    (argsGetOne.get_modules = some ["m1"] ∧ argsGetOne.update_modules = none ∧
      (envPromptN.fetchF
        (if "all" ∈ (["m1"] : List ModuleName) then [] else ["m1"]) false).2.1 ≠ []) ∧
    (["m1"] : List ModuleName) ≠ [] ∧
    ¬("all" ∈ (["m1"] : List ModuleName) ∧ 1 < (["m1"] : List ModuleName).length) ∧
    envPromptN.answer = "n" ∧
    declineStops envPromptN argsGetOne :=
  ⟨rfl, ⟨rfl, rfl, by decide⟩, by decide, by decide, rfl,
    C10_decline_exits_zero envPromptN argsGetOne ["m1"] [] rfl
      (Or.inl ⟨rfl, rfl, by decide⟩) (by decide) (by decide)
      (fun h => absurd h (by decide)) rfl⟩

/-- Concatenation of the three classification buckets of an engine
accumulator state. -/
def buckets
    (st : (List ModuleName × List ModuleName × List ModuleName) × List ModuleName) :
    List ModuleName :=
  st.1.1 ++ st.1.2.1 ++ st.1.2.2

theorem count_singleton_ite (a m : ModuleName) :
    List.count a [m] = if a = m then 1 else 0 := by
  by_cases ham : a = m
  · subst ham
    simp
  · rw [if_neg ham]
    exact List.count_eq_zero_of_not_mem (by simp [ham])

theorem fetchOne_buckets_count (eenv : EngineEnv) (upd : Bool)
    (st : (List ModuleName × List ModuleName × List ModuleName) × List ModuleName)
    (m a : ModuleName) :
    (buckets (fetchOne eenv upd st m)).count a ≤
      (buckets st).count a + if a = m then 1 else 0 := by
  have hm1 : List.count a [m] = if a = m then 1 else 0 := count_singleton_ite a m
  unfold fetchOne buckets
  by_cases h1 : m ∈ st.2 ∧ upd = false
  · rw [if_pos h1]
    by_cases h2 : m ∈ catNames eenv.catalog
    · rw [if_pos h2]
      dsimp only
      simp only [List.count_append, hm1]
      omega
    · rw [if_neg h2]
      dsimp only
      simp only [List.count_append]
      omega
  · rw [if_neg h1]
    cases hv : visit eenv.catalog st.2 [] [] m with
    | error e =>
      dsimp only
      simp only [List.count_append, hm1]
      omega
    | ok order =>
      dsimp only
      by_cases hd : order.all eenv.downloadOk
      · rw [if_pos hd]
        dsimp only
        simp only [List.count_append, hm1]
        omega
      · rw [if_neg hd]
        dsimp only
        simp only [List.count_append, hm1]
        omega

theorem fetchFold_buckets_count (eenv : EngineEnv) (upd : Bool) :
    ∀ (mods : List ModuleName)
      (st : (List ModuleName × List ModuleName × List ModuleName) × List ModuleName)
      (a : ModuleName),
      (buckets (mods.foldl (fetchOne eenv upd) st)).count a ≤
        (buckets st).count a + mods.count a := by
  intro mods
  induction mods with
  | nil =>
    intro st a
    simp
  | cons m ms ih =>
    intro st a
    rw [List.foldl_cons]
    have h1 := ih (fetchOne eenv upd st m) a
    have h2 := fetchOne_buckets_count eenv upd st m a
    by_cases ham : a = m
    · subst ham
      rw [List.count_cons_self]
      rw [if_pos rfl] at h2
      omega
    · rw [List.count_cons_of_ne ham]
      rw [if_neg ham] at h2
      omega

/-- Claim C2: for any request, installed set, catalog and transport
conditions, the (fetched, updatable, failed, unchanged) classes of the
modelled `fetch_modules` partition the requested module set. -/
theorem C2_fetch_partition (eenv : EngineEnv) (inst0 mods : List ModuleName)
    (upd : Bool) (hnd : mods.Nodup) : fetchPartition eenv inst0 mods upd := by
  unfold fetchPartition
  have hcount : ∀ a,
      ((fetch_modules eenv inst0 mods upd).1.1 ++
        (fetch_modules eenv inst0 mods upd).1.2.1 ++
        (fetch_modules eenv inst0 mods upd).1.2.2).count a ≤ mods.count a := by
    intro a
    have h := fetchFold_buckets_count eenv upd mods (([], [], []), inst0) a
    simpa [fetch_modules, buckets] using h
  have hSnodup : ((fetch_modules eenv inst0 mods upd).1.1 ++
      (fetch_modules eenv inst0 mods upd).1.2.1 ++
      (fetch_modules eenv inst0 mods upd).1.2.2).Nodup := by
    rw [List.nodup_iff_count_le_one]
    intro a
    exact le_trans (hcount a) (List.nodup_iff_count_le_one.mp hnd a)
  have hSsub : ∀ x, x ∈ ((fetch_modules eenv inst0 mods upd).1.1 ++
      (fetch_modules eenv inst0 mods upd).1.2.1 ++
      (fetch_modules eenv inst0 mods upd).1.2.2) → x ∈ mods := by
    intro x hx
    have hpos : 0 < ((fetch_modules eenv inst0 mods upd).1.1 ++
        (fetch_modules eenv inst0 mods upd).1.2.1 ++
        (fetch_modules eenv inst0 mods upd).1.2.2).count x :=
      List.count_pos_iff.mpr hx
    have := hcount x
    exact List.count_pos_iff.mp (by omega)
  obtain ⟨hn12, hn3, hdisj23⟩ := List.nodup_append.mp hSnodup
  obtain ⟨hn1, hn2, hdisj12⟩ := List.nodup_append.mp hn12
  refine ⟨?_, ?_, ?_, ?_, ?_, ?_⟩
  · exact hdisj12
  · intro x hx1 hx3
    exact hdisj23 (List.mem_append_left _ hx1) hx3
  · intro x hx2 hx3
    exact hdisj23 (List.mem_append_right _ hx2) hx3
  · intro m hm
    apply hSsub
    simp only [List.mem_append]
    rcases hm with h | h | h
    · exact Or.inl (Or.inl h)
    · exact Or.inl (Or.inr h)
    · exact Or.inr h
  · intro m hm
    by_cases h1 : m ∈ (fetch_modules eenv inst0 mods upd).1.1
    · exact Or.inl h1
    · by_cases h2 : m ∈ (fetch_modules eenv inst0 mods upd).1.2.1
      · exact Or.inr (Or.inl h2)
      · by_cases h3 : m ∈ (fetch_modules eenv inst0 mods upd).1.2.2
        · exact Or.inr (Or.inr (Or.inl h3))
        · refine Or.inr (Or.inr (Or.inr ?_))
          apply List.mem_filter_of_mem hm
          simp [h1, h2, h3]
  · set F := (fetch_modules eenv inst0 mods upd).1.1 with hF
    set U := (fetch_modules eenv inst0 mods upd).1.2.1 with hU
    set FL := (fetch_modules eenv inst0 mods upd).1.2.2 with hFL
    set q : ModuleName → Bool :=
      fun x => decide (x ∉ F) && decide (x ∉ U) && decide (x ∉ FL) with hqd
    have hq : ∀ x, q x = false ↔ x ∈ F ++ U ++ FL := by
      intro x
      rw [hqd, List.mem_append, List.mem_append]
      by_cases m1 : x ∈ F
      · simp [m1]
      · by_cases m2 : x ∈ U
        · simp [m1, m2]
        · by_cases m3 : x ∈ FL
          · simp [m1, m2, m3]
          · simp [m1, m2, m3]
    have hlen : (mods.filter (fun x => !q x)).length = (F ++ U ++ FL).length := by
      apply List.Perm.length_eq
      rw [List.perm_iff_count]
      intro a
      by_cases ha : a ∈ F ++ U ++ FL
      · have hpa : (!q a) = true := by
          rw [(hq a).mpr ha]
          rfl
        have hcf : (mods.filter (fun x => !q x)).count a = mods.count a :=
          List.count_filter hpa
        rw [hcf, List.count_eq_one_of_mem hnd (hSsub a ha),
          List.count_eq_one_of_mem hSnodup ha]
      · have hqa : q a = true := by
          cases hqa : q a with
          | false => exact absurd ((hq a).mp hqa) ha
          | true => rfl
        have h0 : (mods.filter (fun x => !q x)).count a = 0 := by
          apply List.count_eq_zero_of_not_mem
          intro hmem
          have := List.of_mem_filter hmem
          rw [hqa] at this
          exact absurd this (by simp)
        rw [h0, List.count_eq_zero_of_not_mem ha]
    have htot := mods.length_eq_length_filter_add q
    have hlam : (mods.filter (fun x => !q x)) = (mods.filter (! q ·)) := rfl
    rw [hlam] at hlen
    rw [hlen] at htot
    simp only [List.length_append] at htot
    omega

/-- Witness for C2_fetch_partition at a concrete input. -/
theorem C2_witness :
    (["A", "B"] : List ModuleName).Nodup ∧ fetchPartition eeSolo [] ["A", "B"] false :=
  ⟨by decide, C2_fetch_partition eeSolo [] ["A", "B"] false (by decide)⟩

theorem fetchFold_updatable_of_update (eenv : EngineEnv) :
    ∀ (mods : List ModuleName)
      (st : (List ModuleName × List ModuleName × List ModuleName) × List ModuleName),
      (mods.foldl (fetchOne eenv true) st).1.2.1 = st.1.2.1 := by
  intro mods
  induction mods with
  | nil => intro st; rfl
  | cons m ms ih =>
    intro st
    rw [List.foldl_cons, ih]
    unfold fetchOne
    rw [if_neg (by simp)]
    cases visit eenv.catalog st.2 [] [] m with
    | error e => rfl
    | ok order =>
      dsimp only
      split <;> rfl

theorem fetchOne_installed_subset (eenv : EngineEnv) (upd : Bool)
    (st : (List ModuleName × List ModuleName × List ModuleName) × List ModuleName)
    (m x : ModuleName) (hx : x ∈ st.2) : x ∈ (fetchOne eenv upd st m).2 := by
  unfold fetchOne
  by_cases h1 : m ∈ st.2 ∧ upd = false
  · rw [if_pos h1]
    split <;> exact hx
  · rw [if_neg h1]
    cases visit eenv.catalog st.2 [] [] m with
    | error e => exact hx
    | ok order =>
      dsimp only
      split
      · exact List.mem_append_left _ hx
      · exact hx

theorem fetchFold_installed_subset (eenv : EngineEnv) (upd : Bool) :
    ∀ (mods : List ModuleName)
      (st : (List ModuleName × List ModuleName × List ModuleName) × List ModuleName)
      (x : ModuleName), x ∈ st.2 → x ∈ (mods.foldl (fetchOne eenv upd) st).2 := by
  intro mods
  induction mods with
  | nil =>
    intro st x hx
    exact hx
  | cons m0 ms ih =>
    intro st x hx
    rw [List.foldl_cons]
    exact ih (fetchOne eenv upd st m0) x (fetchOne_installed_subset eenv upd st m0 x hx)

theorem fetchFold_updatable_of_fetch (eenv : EngineEnv) :
    ∀ (mods : List ModuleName)
      (st : (List ModuleName × List ModuleName × List ModuleName) × List ModuleName)
      (m : ModuleName), m ∈ (mods.foldl (fetchOne eenv false) st).1.2.1 →
      m ∈ st.1.2.1 ∨ (m ∈ mods ∧ m ∈ catNames eenv.catalog ∧
        m ∈ (mods.foldl (fetchOne eenv false) st).2) := by
  intro mods
  induction mods with
  | nil =>
    intro st m hm
    exact Or.inl hm
  | cons m0 ms ih =>
    intro st m hm
    rw [List.foldl_cons] at hm ⊢
    rcases ih (fetchOne eenv false st m0) m hm with h | ⟨h1, h2, h3⟩
    · by_cases hc : m0 ∈ st.2 ∧ false = false
      · by_cases hcat : m0 ∈ catNames eenv.catalog
        · have hstep : (fetchOne eenv false st m0).1.2.1 = st.1.2.1 ++ [m0] := by
            unfold fetchOne
            rw [if_pos hc, if_pos hcat]
          rw [hstep] at h
          rcases List.mem_append.mp h with h | h
          · exact Or.inl h
          · have hm0 : m = m0 := by simpa using h
            subst hm0
            refine Or.inr ⟨List.mem_cons_self _ _, hcat, ?_⟩
            exact fetchFold_installed_subset eenv false ms (fetchOne eenv false st m) m
              (fetchOne_installed_subset eenv false st m m hc.1)
        · have hstep : (fetchOne eenv false st m0).1.2.1 = st.1.2.1 := by
            unfold fetchOne
            rw [if_pos hc, if_neg hcat]
          rw [hstep] at h
          exact Or.inl h
      · have hstep : (fetchOne eenv false st m0).1.2.1 = st.1.2.1 := by
          unfold fetchOne
          rw [if_neg hc]
          cases visit eenv.catalog st.2 [] [] m0 with
          | error e => rfl
          | ok order =>
            dsimp only
            split <;> rfl
        rw [hstep] at h
        exact Or.inl h
    · exact Or.inr ⟨List.mem_cons_of_mem _ h1, h2, h3⟩

/-- Claim C3 (counterexample): a pure fetch (get, update flag false) of
module A, with A already installed and still advertised remotely, returns
A in the updatable component — `updatable` is not empty on this pure
fetch. -/
theorem C3_counterexample :
    (fetch_modules eeSolo ["A"] ["A"] false).1.2.1 = ["A"] ∧
    (fetch_modules eeSolo ["A"] ["A"] false).1.2.1 ≠ [] := by
  constructor
  · rfl
  · intro h
    have hval : (fetch_modules eeSolo ["A"] ["A"] false).1.2.1 = ["A"] := rfl
    exact absurd (hval.symm.trans h) (by decide)

/-- Claim C3 (amended): the updatable component of the returned triple is
always empty on an update request (the flag under which the prompt-driven
second pass runs); on a pure fetch it can be nonempty and holds only
requested modules that were installed at the moment the engine processed
them — hence they belong to the engine's resulting installed set — and
that the remote catalog still advertises. -/
theorem C3_updatable_on_update_empty (eenv : EngineEnv)
    (inst0 mods : List ModuleName) :
    (fetch_modules eenv inst0 mods true).1.2.1 = [] ∧
    (∀ m, m ∈ (fetch_modules eenv inst0 mods false).1.2.1 →
      m ∈ mods ∧ m ∈ catNames eenv.catalog ∧
        m ∈ (fetch_modules eenv inst0 mods false).2) := by
  constructor
  · exact fetchFold_updatable_of_update eenv mods (([], [], []), inst0)
  · intro m hm
    rcases fetchFold_updatable_of_fetch eenv mods (([], [], []), inst0) m hm with h | h
    · cases h
    · exact h

/-- Witness for C3_updatable_on_update_empty at a concrete input. -/
theorem C3_witness :
    "A" ∈ (fetch_modules eeSolo ["A"] ["A"] false).1.2.1 ∧
    ("A" ∈ (["A"] : List ModuleName) ∧ "A" ∈ catNames eeSolo.catalog ∧
      "A" ∈ (fetch_modules eeSolo ["A"] ["A"] false).2) ∧
    (fetch_modules eeSolo ["A"] ["A"] true).1.2.1 = [] :=
  ⟨by rw [(by rfl : (fetch_modules eeSolo ["A"] ["A"] false).1.2.1 = ["A"])]; exact List.mem_singleton.mpr rfl,
    (C3_updatable_on_update_empty eeSolo ["A"] ["A"]).2 "A"
      (by rw [(by rfl : (fetch_modules eeSolo ["A"] ["A"] false).1.2.1 = ["A"])]; exact List.mem_singleton.mpr rfl),
    (C3_updatable_on_update_empty eeSolo ["A"] ["A"]).1⟩

theorem lookupDeps_isSome_of_mem (cat : Catalog) (n : ModuleName)
    (h : n ∈ cat.map Prod.fst) : ∃ ds, lookupDeps cat n = some ds := by
  obtain ⟨e, he, hfst⟩ := List.mem_map.mp h
  have hsome : (cat.find? (fun e => e.1 == n)).isSome := by
    rw [List.find?_isSome]
    exact ⟨e, he, by simp [hfst]⟩
  obtain ⟨v, hv⟩ := Option.isSome_iff_exists.mp hsome
  exact ⟨v.2, by rw [lookupDeps, hv]; rfl⟩

theorem deps_mem_catNames (cat : Catalog) (hc : ClosedCat cat) (n : ModuleName)
    (ds : List ModuleName) (h : lookupDeps cat n = some ds) :
    ∀ d, d ∈ ds → d ∈ cat.map Prod.fst := by
  intro d hd
  unfold lookupDeps at h
  cases hf : cat.find? (fun e => e.1 == n) with
  | none => rw [hf] at h; cases h
  | some e =>
    rw [hf] at h
    have hmem := List.mem_of_find?_eq_some hf
    have hds : e.2 = ds := by simpa using h
    exact hc e hmem d (hds ▸ hd)

theorem append_singleton_cases (l1 : List ModuleName) (m : ModuleName)
    (l2 d : List ModuleName) (n : ModuleName)
    (h : l1 ++ m :: l2 = d ++ [n]) :
    (l1 = d ∧ m = n ∧ l2 = []) ∨
      ∃ l2p, l2 = l2p ++ [n] ∧ d = l1 ++ m :: l2p := by
  rcases List.eq_nil_or_concat l2 with h2 | ⟨l2p, b, h2⟩
  · subst h2
    have h' : l1 ++ [m] = d ++ [n] := h
    have := List.append_inj' h' rfl
    exact Or.inl ⟨this.1, by simpa using this.2, rfl⟩
  · subst h2
    have h' : (l1 ++ m :: l2p) ++ [b] = d ++ [n] := by
      rw [← h]
      simp [List.concat_eq_append]
    have := List.append_inj' h' rfl
    have hb : b = n := by simpa using this.2
    subst hb
    exact Or.inr ⟨l2p, by simp [List.concat_eq_append], this.1.symm⟩

theorem visitAll_ok_of_visit_ok (cat : Catalog) (inst stack : List ModuleName)
    (hv : ∀ done n out, visit cat inst stack done n = .ok out → done.Nodup →
      resolvedInv cat inst done →
      (∃ t, out = done ++ t ∧ ∀ x, x ∈ t → x ∉ stack) ∧ n ∈ out ∧
        out.Nodup ∧ resolvedInv cat inst out) :
    ∀ (ns done out : List ModuleName),
      visitAll cat inst stack done ns = .ok out → done.Nodup →
      resolvedInv cat inst done →
      (∃ t, out = done ++ t ∧ ∀ x, x ∈ t → x ∉ stack) ∧
        (∀ d, d ∈ ns → d ∉ inst → d ∈ out) ∧
        out.Nodup ∧ resolvedInv cat inst out := by
  intro ns
  induction ns with
  | nil =>
    intro done out hok hnd hinv
    rw [visitAll] at hok
    cases hok
    exact ⟨⟨[], by simp, by simp⟩, by simp, hnd, hinv⟩
  | cons d ds ih =>
    intro done out hok hnd hinv
    rw [visitAll] at hok
    split at hok
    · rename_i hdi
      obtain ⟨⟨t, hout, ht⟩, hmem, hnd', hinv'⟩ := ih done out hok hnd hinv
      refine ⟨⟨t, hout, ht⟩, ?_, hnd', hinv'⟩
      intro d' hd' hd'i
      rcases List.mem_cons.mp hd' with h | h
      · exact absurd (h ▸ hdi) hd'i
      · exact hmem d' h hd'i
    · rename_i hdi
      split at hok
      · exact absurd hok (by simp)
      · rename_i done1 hveq
        obtain ⟨⟨t1, hdone1, ht1⟩, hdmem, hnd1, hinv1⟩ := hv done d done1 hveq hnd hinv
        obtain ⟨⟨t2, hout, ht2⟩, hmem, hnd', hinv'⟩ := ih done1 out hok hnd1 hinv1
        refine ⟨⟨t1 ++ t2, ?_, ?_⟩, ?_, hnd', hinv'⟩
        · rw [hout, hdone1, List.append_assoc]
        · intro x hx
          rcases List.mem_append.mp hx with h | h
          · exact ht1 x h
          · exact ht2 x h
        · intro d' hd' hd'i
          rcases List.mem_cons.mp hd' with h | h
          · subst h
            rw [hout]
            exact List.mem_append_left _ hdmem
          · exact hmem d' h hd'i

theorem visit_ok_props :
    ∀ (N : Nat) (cat : Catalog) (inst stack done : List ModuleName)
      (n : ModuleName) (out : List ModuleName),
      unseen cat stack ≤ N →
      visit cat inst stack done n = .ok out → done.Nodup →
      resolvedInv cat inst done →
      (∃ t, out = done ++ t ∧ ∀ x, x ∈ t → x ∉ stack) ∧ n ∈ out ∧
        out.Nodup ∧ resolvedInv cat inst out := by
  intro N
  induction N with
  | zero =>
    intro cat inst stack done n out hN hok hnd hinv
    rw [visit] at hok
    split at hok
    · rename_i hdone
      cases hok
      exact ⟨⟨[], by simp, by simp⟩, hdone, hnd, hinv⟩
    · rename_i hdone
      split at hok
      · exact absurd hok (by simp)
      · rename_i hs
        split at hok
        · exact absurd hok (by simp)
        · rename_i ds hlook
          exfalso
          have hlt := length_filter_notmem_lt n stack (cat.map Prod.fst)
            (mem_catNames_of_lookupDeps cat n ds hlook) hs
          have : unseen cat stack = 0 := Nat.le_zero.mp hN
          unfold unseen at this
          omega
  | succ N ihN =>
    intro cat inst stack done n out hN hok hnd hinv
    rw [visit] at hok
    split at hok
    · rename_i hdone
      cases hok
      exact ⟨⟨[], by simp, by simp⟩, hdone, hnd, hinv⟩
    · rename_i hdone
      split at hok
      · exact absurd hok (by simp)
      · rename_i hs
        split at hok
        · exact absurd hok (by simp)
        · rename_i ds hlook
          split at hok
          · exact absurd hok (by simp)
          · rename_i done1 hva
            cases hok
            have hlt := length_filter_notmem_lt n stack (cat.map Prod.fst)
              (mem_catNames_of_lookupDeps cat n ds hlook) hs
            have hN' : unseen cat (n :: stack) ≤ N := by
              unfold unseen at hN ⊢
              omega
            have hv' : ∀ (done' : List ModuleName) (n' : ModuleName)
                (out' : List ModuleName),
                visit cat inst (n :: stack) done' n' = .ok out' → done'.Nodup →
                resolvedInv cat inst done' →
                (∃ t, out' = done' ++ t ∧ ∀ x, x ∈ t → x ∉ n :: stack) ∧
                  n' ∈ out' ∧ out'.Nodup ∧ resolvedInv cat inst out' :=
              fun done' n' out' h1 h2 h3 =>
                ihN cat inst (n :: stack) done' n' out' hN' h1 h2 h3
            obtain ⟨⟨t1, hdone1, ht1⟩, hdsmem, hnd1, hinv1⟩ :=
              visitAll_ok_of_visit_ok cat inst (n :: stack) hv' ds done done1
                hva hnd hinv
            have hn_not_done1 : n ∉ done1 := by
              intro hcon
              rw [hdone1] at hcon
              rcases List.mem_append.mp hcon with h | h
              · exact hdone h
              · exact ht1 n h (List.mem_cons_self n stack)
            refine ⟨⟨t1 ++ [n], ?_, ?_⟩, ?_, ?_, ?_⟩
            · rw [hdone1, List.append_assoc]
            · intro x hx
              rcases List.mem_append.mp hx with h | h
              · exact fun hxs => ht1 x h (List.mem_cons_of_mem _ hxs)
              · have : x = n := by simpa using h
                subst this
                exact hs
            · exact List.mem_append_right _ (List.mem_singleton_self n)
            · rw [List.nodup_append]
              refine ⟨hnd1, List.nodup_singleton n, ?_⟩
              intro x hx hxn
              have : x = n := by simpa using hxn
              subst this
              exact hn_not_done1 hx
            · intro l1 m l2 hsplit d hdep
              rcases append_singleton_cases l1 m l2 done1 n hsplit.symm with
                ⟨hl1, hm, h0⟩ | ⟨l2p, h0, hdone1'⟩
              · have h1 : d ∈ (lookupDeps cat m).getD [] := hdep.1
                rw [hm, hlook] at h1
                rw [hl1]
                exact hdsmem d (by simpa using h1) hdep.2
              · exact hinv1 l1 m l2p hdone1' d hdep

theorem visitAll_err_of_visit_err (cat : Catalog) (inst stack : List ModuleName)
    (hv : ∀ done n e, n ∈ cat.map Prod.fst →
      visit cat inst stack done n = .error e →
      ∃ p, e = ResolveError.dependencyCycle p) :
    ∀ (ns done : List ModuleName) (e : ResolveError),
      (∀ x, x ∈ ns → x ∈ cat.map Prod.fst) →
      visitAll cat inst stack done ns = .error e →
      ∃ p, e = ResolveError.dependencyCycle p := by
  intro ns
  induction ns with
  | nil =>
    intro done e _ hok
    rw [visitAll] at hok
    exact absurd hok (by simp)
  | cons d ds ih =>
    intro done e hns hok
    rw [visitAll] at hok
    split at hok
    · exact ih done e (fun x hx => hns x (List.mem_cons_of_mem _ hx)) hok
    · rename_i hdi
      split at hok
      · rename_i e1 hveq
        cases hok
        exact hv done d e (hns d (List.mem_cons_self d ds)) hveq
      · rename_i done1 hveq
        exact ih done1 e (fun x hx => hns x (List.mem_cons_of_mem _ hx)) hok

theorem visit_err_props :
    ∀ (N : Nat) (cat : Catalog), ClosedCat cat →
      ∀ (inst stack done : List ModuleName) (n : ModuleName) (e : ResolveError),
        unseen cat stack ≤ N → n ∈ cat.map Prod.fst →
        visit cat inst stack done n = .error e →
        ∃ p, e = ResolveError.dependencyCycle p := by
  intro N
  induction N with
  | zero =>
    intro cat hc inst stack done n e hN hn hok
    rw [visit] at hok
    split at hok
    · exact absurd hok (by simp)
    · split at hok
      · rename_i hs
        cases hok
        exact ⟨n :: stack, rfl⟩
      · rename_i hs
        split at hok
        · rename_i hlook
          obtain ⟨ds, hds⟩ := lookupDeps_isSome_of_mem cat n hn
          rw [hds] at hlook
          cases hlook
        · rename_i ds hlook
          exfalso
          have hlt := length_filter_notmem_lt n stack (cat.map Prod.fst)
            (mem_catNames_of_lookupDeps cat n ds hlook) hs
          have : unseen cat stack = 0 := Nat.le_zero.mp hN
          unfold unseen at this
          omega
  | succ N ihN =>
    intro cat hc inst stack done n e hN hn hok
    rw [visit] at hok
    split at hok
    · exact absurd hok (by simp)
    · split at hok
      · rename_i hs
        cases hok
        exact ⟨n :: stack, rfl⟩
      · rename_i hs
        split at hok
        · rename_i hlook
          obtain ⟨ds, hds⟩ := lookupDeps_isSome_of_mem cat n hn
          rw [hds] at hlook
          cases hlook
        · rename_i ds hlook
          have hlt := length_filter_notmem_lt n stack (cat.map Prod.fst)
            (mem_catNames_of_lookupDeps cat n ds hlook) hs
          have hN' : unseen cat (n :: stack) ≤ N := by
            unfold unseen at hN ⊢
            omega
          split at hok
          · rename_i e1 hva
            cases hok
            exact visitAll_err_of_visit_err cat inst (n :: stack)
              (fun done' n' e' hn' herr =>
                ihN cat hc inst (n :: stack) done' n' e' hN' hn' herr)
              ds done e (deps_mem_catNames cat hc n ds hlook) hva
          · exact absurd hok (by simp)

theorem resolvedInv_indexOf_lt (cat : Catalog) (inst out : List ModuleName)
    (hnd : out.Nodup) (hinv : resolvedInv cat inst out) (m d : ModuleName)
    (hm : m ∈ out) (hdep : dependsDirect cat inst m d) :
    d ∈ out ∧ out.indexOf d < out.indexOf m := by
  obtain ⟨l1, l2, hsp⟩ := List.append_of_mem hm
  have hd1 : d ∈ l1 := hinv l1 m l2 hsp d hdep
  have hmn : m ∉ l1 := by
    intro hx
    rw [hsp] at hnd
    exact (List.nodup_append.mp hnd).2.2 hx (List.mem_cons_self m l2)
  constructor
  · rw [hsp]
    exact List.mem_append_left _ hd1
  · rw [hsp]
    rw [List.indexOf_append_of_mem hd1, List.indexOf_append_of_not_mem hmn,
      List.indexOf_cons_self]
    have := List.indexOf_lt_length.mpr hd1
    omega

theorem chain_mem_and_indexOf (cat : Catalog) (inst out : List ModuleName)
    (hnd : out.Nodup) (hinv : resolvedInv cat inst out) :
    ∀ (l : List ModuleName) (r : ModuleName),
      List.Chain (dependsDirect cat inst) r l → r ∈ out →
      List.Chain (fun a b => out.indexOf b < out.indexOf a) r l := by
  intro l
  induction l with
  | nil =>
    intro r _ _
    exact List.Chain.nil
  | cons b bs ih =>
    intro r hch hr
    cases hch with
    | cons hrb hbs =>
      obtain ⟨hbout, hlt⟩ := resolvedInv_indexOf_lt cat inst out hnd hinv r b hr hrb
      exact List.Chain.cons hlt (ih b hbs hbout)

/-- Claim C9: for a closed catalog, whenever the requested (not yet
installed) module starts a dependency chain through non-installed modules
that repeats a module (a cycle reachable from the request), the modelled
resolver terminates with a DependencyCycle error naming a cycle path —
it cannot return an order, and being a total function it cannot hang. -/
theorem C9_cycle_fails (cat : Catalog) (inst : List ModuleName)
    (r : ModuleName) (l : List ModuleName)
    (hc : ClosedCat cat) (hr : r ∈ cat.map Prod.fst) (hri : r ∉ inst)
    (hch : List.Chain (dependsDirect cat inst) r l)
    (hdup : ¬ (r :: l).Nodup) :
    ∃ p, resolve cat inst [r] = Except.error (ResolveError.dependencyCycle p) := by
  cases hres : resolve cat inst [r] with
  | error e =>
    have hres' := hres
    unfold resolve at hres'
    obtain ⟨p, hp⟩ := visitAll_err_of_visit_err cat inst []
      (fun done n e' hn herr =>
        visit_err_props (unseen cat []) cat hc inst [] done n e' (le_refl _) hn herr)
      [r] [] e
      (by
        intro x hx
        rw [List.mem_singleton] at hx
        rw [hx]
        exact hr)
      hres'
    exact ⟨p, by rw [hp]⟩
  | ok out =>
    exfalso
    unfold resolve at hres
    have hinv0 : resolvedInv cat inst [] := by
      intro l1 m l2 hsp
      exact absurd hsp.symm (by simp)
    obtain ⟨_, hmem, hnd, hinv⟩ := visitAll_ok_of_visit_ok cat inst []
      (fun done n out' h1 h2 h3 =>
        visit_ok_props (unseen cat []) cat inst [] done n out' (le_refl _) h1 h2 h3)
      [r] [] out hres List.nodup_nil hinv0
    have hrout : r ∈ out := hmem r (List.mem_singleton_self r) hri
    have hch' := chain_mem_and_indexOf cat inst out hnd hinv l r hch hrout
    have hch2 : List.Chain (fun a b : Nat => b < a)
        (out.indexOf r) (l.map out.indexOf) :=
      List.chain_map_of_chain out.indexOf (fun a b h => h) hch'
    have hpw : List.Pairwise (fun a b : Nat => b < a)
        (out.indexOf r :: l.map out.indexOf) :=
      List.chain_iff_pairwise.mp hch2
    have hnodup : ((r :: l).map out.indexOf).Nodup := by
      rw [List.map_cons]
      exact hpw.imp (fun h => Nat.ne_of_gt h)
    exact hdup (List.Nodup.of_map out.indexOf hnodup)

/-- Witness for C9_cycle_fails at the concrete cyclic catalog A -> B -> A. -/
theorem C9_witness :
    ClosedCat catCycle ∧ "A" ∈ catCycle.map Prod.fst ∧
    List.Chain (dependsDirect catCycle []) "A" ["B", "A"] ∧
    ¬ (["A", "B", "A"] : List ModuleName).Nodup ∧
    ∃ p, resolve catCycle [] ["A"] =
      Except.error (ResolveError.dependencyCycle p) :=
  ⟨by decide, by decide,
    List.Chain.cons (by decide) (List.Chain.cons (by decide) List.Chain.nil),
    by decide,
    C9_cycle_fails catCycle [] "A" ["B", "A"] (by decide) (by decide) (by decide)
      (List.Chain.cons (by decide) (List.Chain.cons (by decide) List.Chain.nil))
      (by decide)⟩
